import Mathlib

/-!
Verification of the CSV enrichment pipeline of `server.js` (the
`/api/upload` handler and its helper `processBatchWithAI`).

The JavaScript code is shallowly embedded as follows.

* A CSV cell is `Option String`: `none` models the JavaScript value
  `undefined` (a missing array slot or a missing object property),
  `some s` a string cell.  `Papa.parse` only produces string cells, but
  rows may be ragged, and the merge step can write `undefined` and can
  extend a row by assignment beyond its length, so the general cell
  type is needed.
* A row is a `List` of cells and the parsed table a `List` of rows;
  `row[i]` is embedded as `List.getD row i none`, matching JavaScript
  indexing where out-of-bounds reads give `undefined`.
* `row[i] ? row[i].trim() : ""` and `(row[i] || "").trim()` both
  collapse to `jsTrimGet`, because `"".trim()` is `""` and the only
  falsy values a cell can hold are `undefined` and `""`.
* The external OpenAI call is non-deterministic; its behaviour for one
  batch is a value of the inductive type `AiResponse`: the call can
  throw, or return a payload whose JSON parse fails, is a top-level
  array, is an object whose first key holds an array, is some other
  object, or is a non-object value.  An element of a parsed array is an
  `Option AiRecord`: `none` models a falsy element (e.g. `null`), and
  an `AiRecord` carries the three properties, each possibly absent.
* JavaScript array assignment `row[i] = v` with `i ≥ row.length`
  extends the array with holes; `setCell` reproduces this.
-/

namespace AiCsvApp

/-- One inferred record, as the merge step reads it: each of the three
properties of the JavaScript object may be absent (`undefined`). -/
structure AiRecord where
  country_of_origin : Option String
  artist : Option String
  release_title : Option String
deriving DecidableEq, Repr

/-- One element of the parsed response array; `none` is a falsy element
such as `null`. -/
abbrev AiElem := Option AiRecord

/-- A CSV cell; `none` is the JavaScript `undefined`. -/
abbrev Cell := Option String

/-- A parsed CSV row. -/
abbrev Row := List Cell

/-- The parsed CSV table (`fullCsvData`). -/
abbrev Table := List Row

/-- `const BATCH_SIZE = 100` in `server.js`. -/
def BATCH_SIZE : Nat := 100

/-- `const MAX_PROCESS_LIMIT = 1000` in `server.js`. -/
def MAX_PROCESS_LIMIT : Nat := 1000

/-- The sentinel pushed for each missing record when the parsed
response is shorter than the request. -/
def aiErrorRec : AiRecord :=
  { country_of_origin := some "AI Error", artist := some "AI Error",
    release_title := some "AI Error" }

/-- The sentinel used for the whole batch when the OpenAI call throws. -/
def apiErrorRec : AiRecord :=
  { country_of_origin := some "API Error", artist := some "API Error",
    release_title := some "API Error" }

/-- The empty object `{}` stored by the scheduler for a falsy element:
all three properties absent. -/
def emptyRec : AiRecord :=
  { country_of_origin := none, artist := none, release_title := none }

/-- Behaviour of one external inference call, as far as
`processBatchWithAI` can observe it: the call throws, or the returned
content parses as one of the shapes its normalization distinguishes. -/
inductive AiResponse where
  | throws
  | parseFail
  | arr (records : List AiElem)
  | objFirstArr (records : List AiElem)
  | objOther
  | primitive
deriving DecidableEq, Repr

/-- The `aiData` produced by the defensive parse normalization in
`processBatchWithAI`: a top-level array is taken as is, an object whose
first key holds an array is unwrapped, and every other outcome
(parse failure, other object, non-object) yields `[]`. -/
def parsedRecords : AiResponse → List AiElem
  | .arr records => records
  | .objFirstArr records => records
  | _ => []

/-- The `while (aiData.length < titles.length) aiData.push(errorResult)`
loop: append `AI Error` sentinels until the length reaches `n`
(a no-op when `aiData` is already long enough). -/
def padWithErrors (aiData : List AiElem) (n : Nat) : List AiElem :=
  aiData ++ List.replicate (n - aiData.length) (some aiErrorRec)

/-- `processBatchWithAI(titles, batchIndex)` from `server.js`, as a
function of the batch titles and of the external call's behaviour.
When the call throws it returns `new Array(titles.length).fill(apiError)`;
otherwise it normalizes the parsed response and pads a short result. -/
def processBatchWithAI (titles : List String) (resp : AiResponse) : List AiElem :=
  match resp with
  | .throws => List.replicate titles.length (some apiErrorRec)
  | r => padWithErrors (parsedRecords r) titles.length

theorem length_processBatchWithAI (titles : List String) (resp : AiResponse) :
    (processBatchWithAI titles resp).length =
      max (parsedRecords resp).length titles.length := by
  cases resp <;>
    simp [processBatchWithAI, padWithErrors, parsedRecords] <;>
    omega

/-- C1 (counterexample): with one input title and a parsed response that
is a two-element array, `processBatchWithAI` returns both records, so
the result is longer than the input. -/
theorem c1_counterexample :
    (processBatchWithAI ["a"] (AiResponse.arr [some emptyRec, some emptyRec])).length ≠
      (["a"] : List String).length := by
  decide

/-- C1 (amended): for every batch of titles and every behaviour of the
external call, the length of the array returned by `processBatchWithAI`
is the maximum of the input length and the parsed record count: it
equals the number of input titles for an empty, malformed, non-JSON or
short response and for a thrown transport error, but a parsed array
longer than the request is returned as is. -/
theorem c1_amended (titles : List String) (resp : AiResponse) :
    (processBatchWithAI titles resp).length =
      max (parsedRecords resp).length titles.length :=
  length_processBatchWithAI titles resp

/-- C5: when the external call itself throws, `processBatchWithAI`
returns normally (the embedding is a total function reaching this
return) with an array of exactly `titles.length` copies of the
`API Error` sentinel record. -/
theorem c5_api_error (titles : List String) :
    processBatchWithAI titles AiResponse.throws =
      List.replicate titles.length (some apiErrorRec) :=
  rfl

/-- C6: when the call does not throw and the parsed response holds
fewer records than there are input titles (including zero records after
a parse failure or an unexpected shape), the result is the parsed
records in their original positions followed by `AI Error` sentinels up
to the input length. -/
theorem c6_padding (titles : List String) (resp : AiResponse)
    (hthrow : resp ≠ AiResponse.throws)
    (hshort : (parsedRecords resp).length < titles.length) :
    processBatchWithAI titles resp =
      parsedRecords resp ++
        List.replicate (titles.length - (parsedRecords resp).length)
          (some aiErrorRec) := by
  cases resp <;> first
    | exact absurd rfl hthrow
    | rfl

theorem c6_padding_witness :
    (AiResponse.arr [some emptyRec] ≠ AiResponse.throws) ∧
      (parsedRecords (AiResponse.arr [some emptyRec])).length <
        (["a", "b", "c"] : List String).length ∧
      processBatchWithAI ["a", "b", "c"] (AiResponse.arr [some emptyRec]) =
        parsedRecords (AiResponse.arr [some emptyRec]) ++
          List.replicate
            ((["a", "b", "c"] : List String).length -
              (parsedRecords (AiResponse.arr [some emptyRec])).length)
            (some aiErrorRec) :=
  ⟨by decide, by decide,
    c6_padding ["a", "b", "c"] (AiResponse.arr [some emptyRec]) (by decide) (by decide)⟩

/-- The JavaScript read `row[i]` with out-of-bounds giving `undefined`. -/
def cellAt (row : Row) (i : Nat) : Cell :=
  row.getD i none

/-- JavaScript `String.prototype.trim`: strip leading and trailing
whitespace.  Defined structurally on the character list so that it
evaluates inside the kernel. -/
def jsTrim (s : String) : String :=
  String.mk (((s.data.dropWhile Char.isWhitespace).reverse.dropWhile
    Char.isWhitespace).reverse)

/-- Both cell reads of the handler, `row[i] ? row[i].trim() : ""` in the
filtering loop and `(row[i] || "").trim()` in the merge step: the only
falsy cell values are `undefined` and `""`, and `"".trim()` is `""`, so
both reduce to trimming the cell with `""` for a missing one. -/
def jsTrimGet (row : Row) (i : Nat) : String :=
  jsTrim ((cellAt row i).getD "")

/-- One element pushed onto `itemsToProcess`. -/
structure ProcessItem where
  originalIndex : Nat
  title : String
deriving DecidableEq, Repr

/-- The filtering loop of the upload handler: for `i` from `1` to
`fullCsvData.length - 1`, the row is selected when its title cell
(index 1) is non-empty after trimming and at least one of the cells at
indices 3, 4, 5 is empty after trimming; the pushed item carries the
row index and the trimmed title. -/
def itemsToProcess (table : Table) : List ProcessItem :=
  (List.range' 1 (table.length - 1)).filterMap fun i =>
    let row := table.getD i []
    let title := jsTrimGet row 1
    if title ≠ "" ∧
        (jsTrimGet row 3 = "" ∨ jsTrimGet row 4 = "" ∨ jsTrimGet row 5 = "") then
      some ⟨i, title⟩
    else
      none

/-- The `MAX_PROCESS_LIMIT` truncation: when more than 1000 items were
selected, only the first 1000 (`slice(0, MAX_PROCESS_LIMIT)`) are kept
for enrichment. -/
def cappedItems (table : Table) : List ProcessItem :=
  let items := itemsToProcess table
  if MAX_PROCESS_LIMIT < items.length then items.take MAX_PROCESS_LIMIT else items

/-- The batches loop
`for (i = 0; i < total; i += BATCH_SIZE) batches.push(slice(i, i + BATCH_SIZE))`:
one `slice` per loop iteration, and the loop runs
`(total + BATCH_SIZE - 1) / BATCH_SIZE` times. -/
def batchesOf (items : List ProcessItem) : List (List ProcessItem) :=
  (List.range ((items.length + (BATCH_SIZE - 1)) / BATCH_SIZE)).map fun b =>
    (items.drop (b * BATCH_SIZE)).take BATCH_SIZE

/-- The per-batch collection step
`batch.forEach((item, idx) => allResults.set(item.originalIndex, aiResults[idx] || {}))`:
each item is zipped positionally with the batch result; a falsy element
(or a missing one, when the result is too short) is replaced by the
empty object. -/
def pairBatch (batch : List ProcessItem) (aiResults : List AiElem) :
    List (Nat × AiRecord) :=
  batch.enum.map fun p =>
    (p.2.originalIndex, (aiResults.getD p.1 none).getD emptyRec)

/-- The scheduler: every batch is run through `processBatchWithAI`
(whose external call behaves as `respond` says for that batch index)
and its results are keyed by original row index.  The batches settle
concurrently but write disjoint key sets, so the insertion list in
batch order is a faithful model of the final `allResults` map. -/
def buildResults (items : List ProcessItem) (respond : Nat → AiResponse) :
    List (Nat × AiRecord) :=
  (batchesOf items).enum.flatMap fun p =>
    pairBatch p.2 (processBatchWithAI (p.2.map ProcessItem.title) (respond p.1))

/-- JavaScript array assignment `row[i] = v`: in-bounds indices are
overwritten, an out-of-bounds assignment extends the array with holes
(`undefined`, i.e. `none`) up to index `i`. -/
def setCell (row : Row) (i : Nat) (v : Cell) : Row :=
  if i < row.length then row.set i v
  else row ++ List.replicate (i - row.length) none ++ [v]

/-- One line of the merge step,
`row[i] = (row[i] || "").trim() === "" ? aiRow.f : row[i]`: when the
cell is empty after trimming it receives the inferred value, otherwise
it is assigned its own current value, which leaves the row unchanged
because a cell that trims non-empty exists (is in bounds). -/
def mergeCell (row : Row) (i : Nat) (v : Cell) : Row :=
  if jsTrimGet row i = "" then setCell row i v else row

/-- The three merge assignments of one row, in source order: index 3
from `country_of_origin`, index 4 from `artist`, index 5 from
`release_title`. -/
def mergeRow (row : Row) (aiRow : AiRecord) : Row :=
  mergeCell (mergeCell (mergeCell row 3 aiRow.country_of_origin)
      4 aiRow.artist)
    5 aiRow.release_title

/-- The merge step `allResults.forEach((aiRow, originalIndex) => ...)`:
each stored record is merged into the row at its key, provided
`fullCsvData[originalIndex]` exists (rows, even empty ones, are truthy,
so the guard is exactly an index-in-bounds check). -/
def applyMerge (table : Table) (results : List (Nat × AiRecord)) : Table :=
  results.foldl
    (fun t p =>
      if p.1 < t.length then t.set p.1 (mergeRow (t.getD p.1 []) p.2) else t)
    table

/-- The whole enrichment path of the upload handler after parsing:
select, cap, batch, run the batches, merge the keyed results into the
table.  Serialization (`Papa.unparse`) is the out-of-scope black box,
so the pipeline's output is the merged table. -/
def pipelineTable (table : Table) (respond : Nat → AiResponse) : Table :=
  applyMerge table (buildResults (cappedItems table) respond)

theorem trim_empty : jsTrim "" = "" := rfl

theorem cellAt_eq_getElem? (row : Row) (i : Nat) :
    cellAt row i = (row[i]?).getD none := by
  simp [cellAt]

theorem cellAt_of_length_le (row : Row) (i : Nat) (h : row.length ≤ i) :
    cellAt row i = none := by
  simp [cellAt_eq_getElem?, List.getElem?_eq_none h]

theorem jsTrimGet_congr {r s : Row} {i j : Nat} (h : cellAt r i = cellAt s j) :
    jsTrimGet r i = jsTrimGet s j := by
  simp [jsTrimGet, h]

theorem lt_length_of_jsTrimGet_ne {row : Row} {i : Nat}
    (h : jsTrimGet row i ≠ "") : i < row.length := by
  by_contra hlt
  apply h
  simp [jsTrimGet, cellAt_of_length_le row i (Nat.le_of_not_lt hlt), trim_empty]

theorem length_setCell (row : Row) (i : Nat) (v : Cell) :
    (setCell row i v).length = max row.length (i + 1) := by
  unfold setCell
  split <;> simp <;> omega

theorem cellAt_setCell_self (row : Row) (i : Nat) (v : Cell) :
    cellAt (setCell row i v) i = v := by
  unfold setCell
  split
  · next h => simp [cellAt_eq_getElem?, List.getElem?_set_self (by simpa using h)]
  · next h =>
    have hle : row.length ≤ i := Nat.le_of_not_lt h
    have hlen : (row ++ List.replicate (i - row.length) none).length = i := by
      simp; omega
    rw [cellAt_eq_getElem?, List.getElem?_append_right (Nat.le_of_eq hlen)]
    simp [hlen]

theorem cellAt_setCell_ne (row : Row) (i j : Nat) (v : Cell) (h : j ≠ i) :
    cellAt (setCell row i v) j = cellAt row j := by
  unfold setCell
  split
  · next hi => simp [cellAt_eq_getElem?, List.getElem?_set_ne (Ne.symm h)]
  · next hi =>
    have hle : row.length ≤ i := Nat.le_of_not_lt hi
    have hlen : (row ++ List.replicate (i - row.length) none).length = i := by
      simp; omega
    by_cases hj : j < i
    · have hj' : j < (row ++ List.replicate (i - row.length) none).length := by
        rw [hlen]; exact hj
      rw [cellAt_eq_getElem?, List.getElem?_append_left hj']
      by_cases hjr : j < row.length
      · rw [List.getElem?_append_left hjr, cellAt_eq_getElem?]
      · have hjle : row.length ≤ j := Nat.le_of_not_lt hjr
        rw [cellAt_of_length_le row j hjle,
          List.getElem?_append_right hjle, List.getElem?_replicate]
        split <;> rfl
    · have hij : i < j := by omega
      have hjle : row.length ≤ j := by omega
      have hge : (row ++ List.replicate (i - row.length) none).length ≤ j := by
        rw [hlen]; omega
      rw [cellAt_of_length_le row j hjle, cellAt_eq_getElem?,
        List.getElem?_append_right hge]
      have h1 : ([v] : Row).length ≤
          j - (row ++ List.replicate (i - row.length) none).length := by
        rw [hlen]; simp; omega
      rw [List.getElem?_eq_none h1]
      rfl

theorem cellAt_mergeCell_ne (row : Row) (i j : Nat) (v : Cell) (h : j ≠ i) :
    cellAt (mergeCell row i v) j = cellAt row j := by
  unfold mergeCell
  split
  · exact cellAt_setCell_ne row i j v h
  · rfl

theorem cellAt_mergeCell_self (row : Row) (i : Nat) (v : Cell) :
    cellAt (mergeCell row i v) i =
      if jsTrimGet row i = "" then v else cellAt row i := by
  unfold mergeCell
  split <;> simp_all [cellAt_setCell_self]

theorem lt_length_mergeCell (row : Row) (i : Nat) (v : Cell) :
    i < (mergeCell row i v).length := by
  unfold mergeCell
  split
  · rw [length_setCell]; omega
  · next h => exact lt_length_of_jsTrimGet_ne h

theorem length_le_mergeCell (row : Row) (i : Nat) (v : Cell) :
    row.length ≤ (mergeCell row i v).length := by
  unfold mergeCell
  split
  · rw [length_setCell]; omega
  · exact Nat.le_refl _

theorem length_mergeCell_of_lt (row : Row) (i : Nat) (v : Cell)
    (h : i < row.length) : (mergeCell row i v).length = row.length := by
  unfold mergeCell setCell
  split <;> simp [h]

theorem set_of_getElem? {α : Type _} (l : List α) (i : Nat) (a : α)
    (h : l[i]? = some a) : l.set i a = l := by
  apply List.ext_getElem?
  intro j
  rw [List.getElem?_set]
  split
  · next hij =>
    obtain ⟨hlt, _⟩ := List.getElem?_eq_some_iff.mp h
    rw [← hij, if_pos hlt, h]
  · rfl

theorem mergeCell_stable (r s : Row) (i : Nat) (v : Cell)
    (hc : cellAt s i = cellAt (mergeCell r i v) i) (hl : i < s.length) :
    mergeCell s i v = s := by
  rw [cellAt_mergeCell_self] at hc
  unfold mergeCell
  split
  · next hs =>
    split at hc
    · next hr =>
      unfold setCell
      rw [if_pos hl]
      apply set_of_getElem?
      have : s[i]? = some v := by
        have := cellAt_eq_getElem? s i
        rw [hc] at this
        cases hg : s[i]? with
        | none => exact absurd hg (by simp [List.getElem?_eq_none_iff]; omega)
        | some c => rw [hg] at this; simp at this; rw [this]
      exact this
    · next hr =>
      exact absurd (jsTrimGet_congr hc ▸ hs) hr
  · rfl

theorem cellAt_mergeRow_3 (row : Row) (a : AiRecord) :
    cellAt (mergeRow row a) 3 = cellAt (mergeCell row 3 a.country_of_origin) 3 := by
  unfold mergeRow
  rw [cellAt_mergeCell_ne _ 5 3 _ (by omega), cellAt_mergeCell_ne _ 4 3 _ (by omega)]

theorem cellAt_mergeRow_4 (row : Row) (a : AiRecord) :
    cellAt (mergeRow row a) 4 =
      cellAt (mergeCell (mergeCell row 3 a.country_of_origin) 4 a.artist) 4 := by
  unfold mergeRow
  rw [cellAt_mergeCell_ne _ 5 4 _ (by omega)]

theorem cellAt_mergeRow_ne (row : Row) (a : AiRecord) (j : Nat)
    (h3 : j ≠ 3) (h4 : j ≠ 4) (h5 : j ≠ 5) :
    cellAt (mergeRow row a) j = cellAt row j := by
  unfold mergeRow
  rw [cellAt_mergeCell_ne _ 5 j _ h5, cellAt_mergeCell_ne _ 4 j _ h4,
    cellAt_mergeCell_ne _ 3 j _ h3]

theorem six_le_length_mergeRow (row : Row) (a : AiRecord) :
    6 ≤ (mergeRow row a).length := by
  unfold mergeRow
  exact lt_length_mergeCell _ 5 _

theorem length_mergeRow_of_le (row : Row) (a : AiRecord) (h : 6 ≤ row.length) :
    (mergeRow row a).length = row.length := by
  have l3 : (mergeCell row 3 a.country_of_origin).length = row.length :=
    length_mergeCell_of_lt row 3 a.country_of_origin (by omega)
  have l4 := length_mergeCell_of_lt (mergeCell row 3 a.country_of_origin)
    4 a.artist (by rw [l3]; omega)
  have l5 := length_mergeCell_of_lt
    (mergeCell (mergeCell row 3 a.country_of_origin) 4 a.artist)
    5 a.release_title (by rw [l4, l3]; omega)
  unfold mergeRow
  rw [l5, l4, l3]

theorem mergeRow_preserve_nonempty (row : Row) (a : AiRecord) (i : Nat)
    (hi : i = 3 ∨ i = 4 ∨ i = 5) (h : jsTrimGet row i ≠ "") :
    cellAt (mergeRow row a) i = cellAt row i := by
  rcases hi with rfl | rfl | rfl
  · rw [cellAt_mergeRow_3, cellAt_mergeCell_self, if_neg h]
  · rw [cellAt_mergeRow_4, cellAt_mergeCell_self]
    rw [if_neg, cellAt_mergeCell_ne _ 3 4 _ (by omega)]
    rw [jsTrimGet_congr (cellAt_mergeCell_ne row 3 4 a.country_of_origin (by omega))]
    exact h
  · unfold mergeRow
    rw [cellAt_mergeCell_self]
    have hc : cellAt (mergeCell (mergeCell row 3 a.country_of_origin) 4 a.artist) 5 =
        cellAt row 5 := by
      rw [cellAt_mergeCell_ne _ 4 5 _ (by omega), cellAt_mergeCell_ne _ 3 5 _ (by omega)]
    rw [if_neg (by rw [jsTrimGet_congr hc]; exact h), hc]

theorem mergeRow_idem (row : Row) (a : AiRecord) : mergeRow (mergeRow row a) a = mergeRow row a := by
  have h6 : 6 ≤ (mergeRow row a).length := six_le_length_mergeRow row a
  have h3 : mergeCell (mergeRow row a) 3 a.country_of_origin = mergeRow row a :=
    mergeCell_stable row (mergeRow row a) 3 a.country_of_origin
      (cellAt_mergeRow_3 row a) (by omega)
  have h4 : mergeCell (mergeRow row a) 4 a.artist = mergeRow row a :=
    mergeCell_stable (mergeCell row 3 a.country_of_origin) (mergeRow row a) 4 a.artist
      (cellAt_mergeRow_4 row a) (by omega)
  have h5 : mergeCell (mergeRow row a) 5 a.release_title = mergeRow row a :=
    mergeCell_stable (mergeCell (mergeCell row 3 a.country_of_origin) 4 a.artist)
      (mergeRow row a) 5 a.release_title rfl (by omega)
  show mergeCell (mergeCell (mergeCell (mergeRow row a) 3 a.country_of_origin)
      4 a.artist) 5 a.release_title = mergeRow row a
  rw [h3, h4, h5]

theorem getD_set_ne {α : Type _} (l : List α) (d : α) (k r : Nat) (x : α)
    (h : k ≠ r) : (l.set k x).getD r d = l.getD r d := by
  simp [List.getD_eq_getElem?_getD, List.getElem?_set_ne h]

theorem getD_set_self {α : Type _} (l : List α) (d : α) (k : Nat) (x : α)
    (h : k < l.length) : (l.set k x).getD k d = x := by
  simp [List.getD_eq_getElem?_getD, List.getElem?_set_self h]

theorem getElem?_eq_some_getD {α : Type _} (l : List α) (d : α) (i : Nat)
    (h : i < l.length) : l[i]? = some (l.getD i d) := by
  cases hg : l[i]? with
  | none => exact absurd (List.getElem?_eq_none_iff.mp hg) (by omega)
  | some v => simp [List.getD_eq_getElem?_getD, hg]

theorem applyMerge_nil (t : Table) : applyMerge t [] = t := rfl

theorem applyMerge_cons (t : Table) (p : Nat × AiRecord) (rs : List (Nat × AiRecord)) :
    applyMerge t (p :: rs) =
      applyMerge
        (if p.1 < t.length then t.set p.1 (mergeRow (t.getD p.1 []) p.2) else t)
        rs :=
  rfl

theorem length_applyMerge (t : Table) (rs : List (Nat × AiRecord)) :
    (applyMerge t rs).length = t.length := by
  induction rs generalizing t with
  | nil => rfl
  | cons p rs ih =>
    rw [applyMerge_cons]
    split <;> rw [ih] <;> simp

theorem applyMerge_getElem?_not_mem (t : Table) (rs : List (Nat × AiRecord))
    (j : Nat) (h : j ∉ rs.map Prod.fst) : (applyMerge t rs)[j]? = t[j]? := by
  induction rs generalizing t with
  | nil => rfl
  | cons p rs ih =>
    simp only [List.map_cons, List.mem_cons, not_or] at h
    rw [applyMerge_cons, ih _ h.2]
    split
    · exact List.getElem?_set_ne (Ne.symm h.1)
    · rfl

theorem applyMerge_fix (t : Table) (rs : List (Nat × AiRecord))
    (h : ∀ p ∈ rs, p.1 < t.length → mergeRow (t.getD p.1 []) p.2 = t.getD p.1 []) :
    applyMerge t rs = t := by
  induction rs with
  | nil => rfl
  | cons p rs ih =>
    rw [applyMerge_cons]
    have hstep :
        (if p.1 < t.length then t.set p.1 (mergeRow (t.getD p.1 []) p.2) else t) = t := by
      split
      · next hlt =>
        rw [h p (List.mem_cons_self p rs) hlt]
        exact set_of_getElem? t p.1 _ (getElem?_eq_some_getD t [] p.1 hlt)
      · rfl
    rw [hstep]
    exact ih fun q hq => h q (List.mem_cons_of_mem p hq)

theorem applyMerge_getElem?_mem_nodup (t : Table) (rs : List (Nat × AiRecord))
    (k : Nat) (a : AiRecord) (hnd : (rs.map Prod.fst).Nodup)
    (hmem : (k, a) ∈ rs) (hk : k < t.length) :
    (applyMerge t rs)[k]? = some (mergeRow (t.getD k []) a) := by
  induction rs generalizing t with
  | nil => exact absurd hmem (List.not_mem_nil _)
  | cons p rs ih =>
    simp only [List.map_cons, List.nodup_cons] at hnd
    rw [applyMerge_cons]
    rcases List.mem_cons.mp hmem with heq | htail
    · have hk1 : p.1 = k := by rw [← heq]
      have ha : p.2 = a := by rw [← heq]
      rw [hk1, ha, if_pos hk,
        applyMerge_getElem?_not_mem _ rs k (hk1 ▸ hnd.1)]
      exact List.getElem?_set_self (by simpa using hk)
    · have hkmem : k ∈ rs.map Prod.fst :=
        List.mem_map.mpr ⟨(k, a), htail, rfl⟩
      have hne : p.1 ≠ k := fun hc => hnd.1 (hc ▸ hkmem)
      have hres :
          ∀ t' : Table, t'.length = t.length → t'.getD k [] = t.getD k [] →
            (applyMerge t' rs)[k]? = some (mergeRow (t.getD k []) a) := by
        intro t' hlen hget
        rw [← hget]
        exact ih t' hnd.2 htail (by omega)
      split
      · next hlt =>
        exact hres _ (by simp) (getD_set_ne t [] p.1 k _ hne)
      · exact hres t rfl rfl

theorem applyMerge_preserve_nonempty (t : Table) (rs : List (Nat × AiRecord))
    (r i : Nat) (hi : i = 3 ∨ i = 4 ∨ i = 5)
    (h : jsTrimGet (t.getD r []) i ≠ "") :
    cellAt ((applyMerge t rs).getD r []) i = cellAt (t.getD r []) i := by
  induction rs generalizing t with
  | nil => rfl
  | cons p rs ih =>
    rw [applyMerge_cons]
    have hcell :
        cellAt ((if p.1 < t.length then
          t.set p.1 (mergeRow (t.getD p.1 []) p.2) else t).getD r []) i =
          cellAt (t.getD r []) i := by
      split
      · next hlt =>
        by_cases hr : p.1 = r
        · subst hr
          rw [getD_set_self t [] p.1 _ hlt]
          exact mergeRow_preserve_nonempty _ p.2 i hi h
        · rw [getD_set_ne t [] p.1 r _ hr]
      · rfl
    rw [← hcell]
    exact ih _ (by rw [jsTrimGet_congr hcell]; exact h)

/-- C2: the merge step never overwrites a cell that was non-empty after
trimming: for any table and any result list, a target cell (index 3, 4
or 5) whose original content trims non-empty has the same content after
the merge, even when other cells of the same row are filled. -/
theorem c2_never_overwrite (table : Table) (results : List (Nat × AiRecord))
    (r i : Nat) (hi : i = 3 ∨ i = 4 ∨ i = 5)
    (h : jsTrimGet (table.getD r []) i ≠ "") :
    cellAt ((applyMerge table results).getD r []) i =
      cellAt (table.getD r []) i :=
  applyMerge_preserve_nonempty table results r i hi h

theorem c2_never_overwrite_witness :
    ((3 : Nat) = 3 ∨ (3 : Nat) = 4 ∨ (3 : Nat) = 5) ∧
      jsTrimGet (([[], [some "a", some "t", some "c", some "X", none, none]] :
        Table).getD 1 []) 3 ≠ "" ∧
      cellAt ((applyMerge [[], [some "a", some "t", some "c", some "X", none, none]]
          [(1, apiErrorRec)]).getD 1 []) 3 =
        cellAt (([[], [some "a", some "t", some "c", some "X", none, none]] :
          Table).getD 1 []) 3 :=
  ⟨by decide, by decide,
    c2_never_overwrite [[], [some "a", some "t", some "c", some "X", none, none]]
      [(1, apiErrorRec)] 1 3 (by decide) (by decide)⟩

/-- C8: merging the same result map twice gives the same table as
merging it once; the keys of a `ResultMap` are unique, which the
hypothesis records. -/
theorem c8_merge_idempotent (table : Table) (results : List (Nat × AiRecord))
    (hnd : (results.map Prod.fst).Nodup) :
    applyMerge (applyMerge table results) results = applyMerge table results := by
  apply applyMerge_fix
  intro p hp hlt
  have hk : p.1 < table.length := by
    rw [length_applyMerge] at hlt
    exact hlt
  have hsome := applyMerge_getElem?_mem_nodup table results p.1 p.2 hnd hp hk
  have hgetD : (applyMerge table results).getD p.1 [] =
      mergeRow (table.getD p.1 []) p.2 := by
    simp [List.getD_eq_getElem?_getD, hsome]
  rw [hgetD, mergeRow_idem]

theorem c8_merge_idempotent_witness :
    ((([(1, apiErrorRec), (2, aiErrorRec)] : List (Nat × AiRecord)).map
      Prod.fst).Nodup) ∧
      applyMerge (applyMerge [[], [some "a", some "t"], [some "b", some "u"]]
          [(1, apiErrorRec), (2, aiErrorRec)])
        [(1, apiErrorRec), (2, aiErrorRec)] =
        applyMerge [[], [some "a", some "t"], [some "b", some "u"]]
          [(1, apiErrorRec), (2, aiErrorRec)] :=
  ⟨by decide,
    c8_merge_idempotent [[], [some "a", some "t"], [some "b", some "u"]]
      [(1, apiErrorRec), (2, aiErrorRec)] (by decide)⟩

/-- C10: when a full-length batch result pairs an item with a falsy
element, the scheduler stores the empty record under that item's
original index, and merging the empty record writes `undefined`
(`none`), not a sentinel, into each target cell of the row that was
empty after trimming. -/
theorem c10_falsy_element (batch : List ProcessItem) (aiResults : List AiElem)
    (idx : Nat) (row : Row) (i : Nat)
    (h1 : idx < batch.length) (h2 : aiResults.length = batch.length)
    (h3 : aiResults.getD idx none = none)
    (hi : i = 3 ∨ i = 4 ∨ i = 5) (hempty : jsTrimGet row i = "") :
    (pairBatch batch aiResults)[idx]? =
      some ((batch.getD idx ⟨0, ""⟩).originalIndex, emptyRec) ∧
      cellAt (mergeRow row emptyRec) i = none := by
  constructor
  · unfold pairBatch
    rw [List.getD_eq_getElem?_getD] at h3
    rw [List.getElem?_map, List.getElem?_enum,
      getElem?_eq_some_getD batch ⟨0, ""⟩ idx h1]
    simp [List.getD_eq_getElem?_getD, h3]
  · have hco : emptyRec.country_of_origin = none := rfl
    have har : emptyRec.artist = none := rfl
    have hrt : emptyRec.release_title = none := rfl
    rcases hi with rfl | rfl | rfl
    · rw [cellAt_mergeRow_3, cellAt_mergeCell_self, if_pos hempty, hco]
    · rw [cellAt_mergeRow_4, cellAt_mergeCell_self, har]
      rw [if_pos]
      rw [jsTrimGet_congr (cellAt_mergeCell_ne row 3 4 emptyRec.country_of_origin
        (by omega))]
      exact hempty
    · show cellAt (mergeCell _ 5 emptyRec.release_title) 5 = none
      rw [cellAt_mergeCell_self, hrt]
      rw [if_pos]
      rw [jsTrimGet_congr (cellAt_mergeCell_ne _ 4 5 emptyRec.artist (by omega)),
        jsTrimGet_congr (cellAt_mergeCell_ne row 3 5 emptyRec.country_of_origin
          (by omega))]
      exact hempty

theorem c10_falsy_element_witness :
    (0 < ([⟨7, "t"⟩] : List ProcessItem).length) ∧
      ([none] : List AiElem).length = ([⟨7, "t"⟩] : List ProcessItem).length ∧
      ([none] : List AiElem).getD 0 none = none ∧
      ((3 : Nat) = 3 ∨ (3 : Nat) = 4 ∨ (3 : Nat) = 5) ∧
      jsTrimGet ([some "a", some "t"] : Row) 3 = "" ∧
      ((pairBatch [⟨7, "t"⟩] [none])[0]? =
        some ((([⟨7, "t"⟩] : List ProcessItem).getD 0 ⟨0, ""⟩).originalIndex,
          emptyRec) ∧
        cellAt (mergeRow [some "a", some "t"] emptyRec) 3 = none) :=
  ⟨by decide, by decide, by decide, by decide, by decide,
    c10_falsy_element [⟨7, "t"⟩] [none] 0 [some "a", some "t"] 3
      (by decide) (by decide) (by decide) (by decide) (by decide)⟩

theorem mem_itemsToProcess (table : Table) (i : Nat) (t : String) :
    (⟨i, t⟩ : ProcessItem) ∈ itemsToProcess table ↔
      1 ≤ i ∧ i < table.length ∧ t = jsTrimGet (table.getD i []) 1 ∧ t ≠ "" ∧
        (jsTrimGet (table.getD i []) 3 = "" ∨ jsTrimGet (table.getD i []) 4 = "" ∨
          jsTrimGet (table.getD i []) 5 = "") := by
  unfold itemsToProcess
  rw [List.mem_filterMap]
  constructor
  · rintro ⟨j, hj, hf⟩
    rw [List.mem_range'_1] at hj
    simp only at hf
    split at hf
    · next hcond =>
      obtain ⟨rfl, rfl⟩ : j = i ∧ jsTrimGet (table.getD j []) 1 = t := by
        have := congrArg ProcessItem.originalIndex (Option.some.inj hf)
        have ht := congrArg ProcessItem.title (Option.some.inj hf)
        exact ⟨this, ht⟩
      exact ⟨hj.1, by omega, rfl, hcond.1, hcond.2⟩
    · exact absurd hf (by simp)
  · rintro ⟨h1, h2, rfl, hne, hor⟩
    refine ⟨i, List.mem_range'_1.mpr ⟨h1, by omega⟩, ?_⟩
    simp only
    rw [if_pos ⟨hne, hor⟩]

theorem itemsToProcess_sorted (table : Table) :
    ((itemsToProcess table).map ProcessItem.originalIndex).Pairwise (· < ·) := by
  rw [List.pairwise_map]
  unfold itemsToProcess
  apply List.Pairwise.filterMap
  · intro a b hab x hx y hy
    have hxa : x.originalIndex = a := by
      simp only at hx
      split at hx
      · cases Option.mem_def.mp hx; rfl
      · exact absurd hx (by simp)
    have hyb : y.originalIndex = b := by
      simp only at hy
      split at hy
      · cases Option.mem_def.mp hy; rfl
      · exact absurd hy (by simp)
    rw [hxa, hyb]
    exact hab
  · exact List.pairwise_lt_range' 1 (table.length - 1)

/-- C3: selection contains exactly the items for data rows (index at
least 1, header excluded) whose title cell trims non-empty and with at
least one empty target cell, the stored title being the trimmed title;
and the selected original indices are strictly increasing, so selection
is in table order and duplicate-free. -/
theorem c3_selection (table : Table) (i : Nat) (t : String) :
    ((⟨i, t⟩ : ProcessItem) ∈ itemsToProcess table ↔
      1 ≤ i ∧ i < table.length ∧ t = jsTrimGet (table.getD i []) 1 ∧ t ≠ "" ∧
        (jsTrimGet (table.getD i []) 3 = "" ∨ jsTrimGet (table.getD i []) 4 = "" ∨
          jsTrimGet (table.getD i []) 5 = "")) ∧
      ((itemsToProcess table).map ProcessItem.originalIndex).Pairwise (· < ·) :=
  ⟨mem_itemsToProcess table i t, itemsToProcess_sorted table⟩

theorem ceil_div_succ (m s : Nat) (hs : 0 < s) (hm : 0 < m) :
    (m + (s - 1)) / s = (m - s + (s - 1)) / s + 1 := by
  have e1 : m + (s - 1) = (m - 1) + s := by omega
  rw [e1, Nat.add_div_right _ hs]
  by_cases hms : s ≤ m
  · have e2 : m - s + (s - 1) = m - 1 := by omega
    rw [e2]
  · rw [Nat.div_eq_of_lt (by omega), Nat.div_eq_of_lt (by omega)]

theorem chunks_flatten {α : Type _} (s : Nat) (hs : 0 < s) :
    ∀ (n : Nat) (l : List α), l.length ≤ n →
      ((List.range ((l.length + (s - 1)) / s)).map fun b =>
        (l.drop (b * s)).take s).flatten = l := by
  intro n
  induction n with
  | zero =>
    intro l hl
    have : l = [] := List.eq_nil_of_length_eq_zero (by omega)
    subst this
    rw [List.length_nil, Nat.div_eq_of_lt (by omega)]
    rfl
  | succ n ih =>
    intro l hl
    by_cases h0 : l = []
    · subst h0
      rw [List.length_nil, Nat.div_eq_of_lt (by omega)]
      rfl
    · have hpos : 0 < l.length := List.length_pos.mpr h0
      have hceil : (l.length + (s - 1)) / s =
          ((l.drop s).length + (s - 1)) / s + 1 := by
        rw [List.length_drop]
        exact ceil_div_succ l.length s hs hpos
      rw [hceil, List.range_succ_eq_map, List.map_cons, List.map_map,
        List.flatten_cons]
      have hfun : ((fun b => (l.drop (b * s)).take s) ∘ Nat.succ) =
          fun b => (((l.drop s).drop (b * s)).take s) := by
        funext b
        simp only [Function.comp, List.drop_drop]
        have : b.succ * s = s + b * s := by
          rw [Nat.succ_mul]; omega
        rw [this]
      rw [hfun, ih (l.drop s) (by rw [List.length_drop]; omega)]
      simp [List.take_append_drop]

theorem flatten_batchesOf (items : List ProcessItem) :
    (batchesOf items).flatten = items := by
  unfold batchesOf
  exact chunks_flatten BATCH_SIZE (by decide) items.length items (Nat.le_refl _)

theorem length_batchesOf (items : List ProcessItem) :
    (batchesOf items).length = (items.length + (BATCH_SIZE - 1)) / BATCH_SIZE := by
  simp [batchesOf]

theorem batchesOf_full (items : List ProcessItem) (j : Nat)
    (hj : j + 1 < (batchesOf items).length) :
    ((batchesOf items).getD j []).length = BATCH_SIZE := by
  rw [length_batchesOf] at hj
  have hjr : j < (items.length + (BATCH_SIZE - 1)) / BATCH_SIZE := by omega
  have hgd : (batchesOf items).getD j [] = (items.drop (j * BATCH_SIZE)).take BATCH_SIZE := by
    unfold batchesOf
    simp [List.getD_eq_getElem?_getD, List.getElem?_range hjr]
  have hmul : (j + 2) * BATCH_SIZE ≤ items.length + (BATCH_SIZE - 1) :=
    (Nat.le_div_iff_mul_le (by decide)).mp (by omega)
  have hexp : j * BATCH_SIZE + 2 * BATCH_SIZE ≤ items.length + (BATCH_SIZE - 1) := by
    calc j * BATCH_SIZE + 2 * BATCH_SIZE = (j + 2) * BATCH_SIZE := by
          rw [Nat.add_mul]
      _ ≤ items.length + (BATCH_SIZE - 1) := hmul
  rw [hgd]
  simp only [List.length_take, List.length_drop]
  have hB : BATCH_SIZE = 100 := rfl
  omega

theorem batchesOf_le (items : List ProcessItem) (b : List ProcessItem)
    (hb : b ∈ batchesOf items) : b.length ≤ BATCH_SIZE := by
  unfold batchesOf at hb
  obtain ⟨j, _, rfl⟩ := List.mem_map.mp hb
  exact List.length_take_le _ _

/-- C7: the batches are the contiguous chunks of the selection: their
number is the ceiling of selection size over `BATCH_SIZE`, concatenating
them in order reconstructs the selection exactly, every batch before
the last has exactly `BATCH_SIZE` items, and no batch is longer. -/
theorem c7_batching (items : List ProcessItem) :
    (batchesOf items).length = (items.length + (BATCH_SIZE - 1)) / BATCH_SIZE ∧
      (batchesOf items).flatten = items ∧
      (∀ j, j + 1 < (batchesOf items).length →
        ((batchesOf items).getD j []).length = BATCH_SIZE) ∧
      (∀ b ∈ batchesOf items, b.length ≤ BATCH_SIZE) :=
  ⟨length_batchesOf items, flatten_batchesOf items,
    fun j hj => batchesOf_full items j hj, fun b hb => batchesOf_le items b hb⟩

theorem pairBatch_keys (batch : List ProcessItem) (aiResults : List AiElem) :
    (pairBatch batch aiResults).map Prod.fst =
      batch.map ProcessItem.originalIndex := by
  unfold pairBatch
  rw [List.map_map]
  have hcomp : (Prod.fst ∘ fun p : Nat × ProcessItem =>
      (p.2.originalIndex, (aiResults.getD p.1 none).getD emptyRec)) =
      ProcessItem.originalIndex ∘ Prod.snd := rfl
  rw [hcomp, ← List.map_map, List.enum_map_snd]

theorem flatMap_map_eq_map_flatten {α β : Type _} (f : α → β) :
    ∀ L : List (List α), L.flatMap (fun b => b.map f) = L.flatten.map f
  | [] => rfl
  | b :: L => by
    simp [List.flatMap_cons, List.flatten_cons,
      flatMap_map_eq_map_flatten f L]

theorem buildResults_keys (items : List ProcessItem) (respond : Nat → AiResponse) :
    (buildResults items respond).map Prod.fst =
      items.map ProcessItem.originalIndex := by
  unfold buildResults
  rw [List.map_flatMap]
  have h1 : (fun p : Nat × List ProcessItem =>
      (pairBatch p.2 (processBatchWithAI (p.2.map ProcessItem.title)
        (respond p.1))).map Prod.fst) =
      fun p : Nat × List ProcessItem => p.2.map ProcessItem.originalIndex := by
    funext p
    exact pairBatch_keys p.2 _
  rw [h1]
  have step1 : (batchesOf items).enum.flatMap
      (fun p : Nat × List ProcessItem => p.2.map ProcessItem.originalIndex) =
      ((batchesOf items).enum.map Prod.snd).flatMap
        (fun b => b.map ProcessItem.originalIndex) :=
    (List.flatMap_map Prod.snd
      (fun b => b.map ProcessItem.originalIndex) (batchesOf items).enum).symm
  rw [step1, List.enum_map_snd, flatMap_map_eq_map_flatten, flatten_batchesOf]

theorem not_mem_take_keys (items : List ProcessItem) (item : ProcessItem)
    (hsorted : (items.map ProcessItem.originalIndex).Pairwise (· < ·))
    (hitem : item ∈ items.drop MAX_PROCESS_LIMIT) :
    item.originalIndex ∉
      (items.take MAX_PROCESS_LIMIT).map ProcessItem.originalIndex := by
  intro hmem
  have hsplit : items.map ProcessItem.originalIndex =
      (items.take MAX_PROCESS_LIMIT).map ProcessItem.originalIndex ++
        (items.drop MAX_PROCESS_LIMIT).map ProcessItem.originalIndex := by
    rw [← List.map_append, List.take_append_drop]
  rw [hsplit] at hsorted
  have hcross := (List.pairwise_append.mp hsorted).2.2
  have hy : item.originalIndex ∈
      (items.drop MAX_PROCESS_LIMIT).map ProcessItem.originalIndex :=
    List.mem_map.mpr ⟨item, hitem, rfl⟩
  exact Nat.lt_irrefl _ (hcross _ hmem _ hy)

/-- C4: when the selection exceeds `MAX_PROCESS_LIMIT`, exactly its
first 1000 items (in selection order) are kept for enrichment, the
output table has the same number of rows as the parsed input, and the
row of any item excluded by the truncation is emitted unchanged. -/
theorem c4_truncation (table : Table) (respond : Nat → AiResponse)
    (item : ProcessItem)
    (h : MAX_PROCESS_LIMIT < (itemsToProcess table).length)
    (hitem : item ∈ (itemsToProcess table).drop MAX_PROCESS_LIMIT) :
    cappedItems table = (itemsToProcess table).take MAX_PROCESS_LIMIT ∧
      (pipelineTable table respond).length = table.length ∧
      (pipelineTable table respond)[item.originalIndex]? =
        table[item.originalIndex]? := by
  have hcap : cappedItems table = (itemsToProcess table).take MAX_PROCESS_LIMIT := by
    unfold cappedItems
    rw [if_pos h]
  refine ⟨hcap, length_applyMerge table _, ?_⟩
  unfold pipelineTable
  apply applyMerge_getElem?_not_mem
  rw [buildResults_keys, hcap]
  exact not_mem_take_keys (itemsToProcess table) item
    (itemsToProcess_sorted table) hitem

theorem getD_replicate {α : Type _} (k i : Nat) (x d : α) (h : i < k) :
    (List.replicate k x).getD i d = x := by
  simp [List.getD_eq_getElem?_getD, List.getElem?_replicate, h]

theorem itemsToProcess_replicate (k : Nat) (r : Row)
    (h1 : jsTrimGet r 1 ≠ "")
    (h2 : jsTrimGet r 3 = "" ∨ jsTrimGet r 4 = "" ∨ jsTrimGet r 5 = "") :
    itemsToProcess (List.replicate k r) =
      (List.range' 1 (k - 1)).map
        fun i => (⟨i, jsTrimGet r 1⟩ : ProcessItem) := by
  unfold itemsToProcess
  rw [List.length_replicate]
  have hcong : ∀ i ∈ List.range' 1 (k - 1),
      (fun i =>
        let row := (List.replicate k r).getD i []
        let title := jsTrimGet row 1
        if title ≠ "" ∧
            (jsTrimGet row 3 = "" ∨ jsTrimGet row 4 = "" ∨ jsTrimGet row 5 = "") then
          some (⟨i, title⟩ : ProcessItem)
        else none) i =
      (some ∘ fun i => (⟨i, jsTrimGet r 1⟩ : ProcessItem)) i := by
    intro i hi
    rw [List.mem_range'_1] at hi
    have hik : i < k := by omega
    simp only [Function.comp]
    rw [getD_replicate k i r [] hik, if_pos ⟨h1, h2⟩]
  rw [List.filterMap_congr hcong, List.filterMap_eq_map]

theorem c4_truncation_witness :
    MAX_PROCESS_LIMIT <
      (itemsToProcess (List.replicate 1002 ([none, some "t"] : Row))).length ∧
      (⟨1001, "t"⟩ : ProcessItem) ∈
        (itemsToProcess (List.replicate 1002 ([none, some "t"] : Row))).drop
          MAX_PROCESS_LIMIT ∧
      (cappedItems (List.replicate 1002 ([none, some "t"] : Row)) =
        (itemsToProcess (List.replicate 1002 ([none, some "t"] : Row))).take
          MAX_PROCESS_LIMIT ∧
        (pipelineTable (List.replicate 1002 ([none, some "t"] : Row))
          (fun _ => AiResponse.throws)).length =
          (List.replicate 1002 ([none, some "t"] : Row)).length ∧
        (pipelineTable (List.replicate 1002 ([none, some "t"] : Row))
          (fun _ => AiResponse.throws))[(⟨1001, "t"⟩ : ProcessItem).originalIndex]? =
          (List.replicate 1002 ([none, some "t"] : Row))[(⟨1001, "t"⟩ :
            ProcessItem).originalIndex]?) := by
  have hitems : itemsToProcess (List.replicate 1002 ([none, some "t"] : Row)) =
      (List.range' 1 1001).map
        fun i => (⟨i, jsTrimGet ([none, some "t"] : Row) 1⟩ : ProcessItem) :=
    itemsToProcess_replicate 1002 [none, some "t"] (by decide) (by decide)
  have htitle : jsTrimGet ([none, some "t"] : Row) 1 = "t" := by decide
  have h : MAX_PROCESS_LIMIT <
      (itemsToProcess (List.replicate 1002 ([none, some "t"] : Row))).length := by
    rw [hitems, List.length_map, List.length_range']
    decide
  have hdropr : (List.range' 1 1001).drop 1000 = [1001] := by
    have happ : List.range' 1 1000 ++ List.range' 1001 1 = List.range' 1 1001 := by
      simpa using List.range'_append_1 1 1000 1
    rw [← happ, List.drop_left' (by simp)]
    rfl
  have hitem : (⟨1001, "t"⟩ : ProcessItem) ∈
      (itemsToProcess (List.replicate 1002 ([none, some "t"] : Row))).drop
        MAX_PROCESS_LIMIT := by
    rw [hitems, ← List.map_drop]
    show _ ∈ (((List.range' 1 1001).drop 1000).map _)
    rw [hdropr, htitle]
    exact List.mem_singleton.mpr rfl
  exact ⟨h, hitem,
    c4_truncation (List.replicate 1002 ([none, some "t"] : Row))
      (fun _ => AiResponse.throws) ⟨1001, "t"⟩ h hitem⟩

theorem applyMerge_row_length (t : Table) (rs : List (Nat × AiRecord)) (r : Nat)
    (h6 : ∀ row ∈ t, 6 ≤ row.length) :
    ((applyMerge t rs).getD r []).length = (t.getD r []).length := by
  induction rs generalizing t with
  | nil => rfl
  | cons p rs ih =>
    rw [applyMerge_cons]
    set t1 := if p.1 < t.length then
      t.set p.1 (mergeRow (t.getD p.1 []) p.2) else t with ht1
    have h6' : ∀ row ∈ t1, 6 ≤ row.length := by
      intro row hrow
      rw [ht1] at hrow
      split at hrow
      · rcases List.mem_or_eq_of_mem_set hrow with hmem | heq
        · exact h6 row hmem
        · rw [heq]
          exact six_le_length_mergeRow _ _
      · exact h6 row hrow
    have hlen : (t1.getD r []).length = (t.getD r []).length := by
      rw [ht1]
      split
      · next hlt =>
        by_cases hr : p.1 = r
        · subst hr
          rw [getD_set_self t [] p.1 _ hlt]
          apply length_mergeRow_of_le
          exact h6 _ (List.getElem?_mem (getElem?_eq_some_getD t [] p.1 hlt))
        · rw [getD_set_ne t [] p.1 r _ hr]
      · rfl
    rw [ih t1 h6', hlen]

theorem applyMerge_cellAt_ne_targets (t : Table) (rs : List (Nat × AiRecord))
    (r i : Nat) (h3 : i ≠ 3) (h4 : i ≠ 4) (h5 : i ≠ 5) :
    cellAt ((applyMerge t rs).getD r []) i = cellAt (t.getD r []) i := by
  induction rs generalizing t with
  | nil => rfl
  | cons p rs ih =>
    rw [applyMerge_cons]
    have hcell :
        cellAt ((if p.1 < t.length then
          t.set p.1 (mergeRow (t.getD p.1 []) p.2) else t).getD r []) i =
          cellAt (t.getD r []) i := by
      split
      · next hlt =>
        by_cases hr : p.1 = r
        · subst hr
          rw [getD_set_self t [] p.1 _ hlt]
          exact cellAt_mergeRow_ne _ p.2 i h3 h4 h5
        · rw [getD_set_ne t [] p.1 r _ hr]
      · rfl
    rw [← hcell]
    exact ih _

/-- C9 (counterexample): a ragged data row with only two cells that
qualifies for enrichment is extended by the merge assignments to six
cells, so the output row has more columns than the corresponding input
row. -/
theorem c9_counterexample :
    ((pipelineTable [[some "h"], [some "a", some "t"]]
        (fun _ => AiResponse.throws)).getD 1 []).length ≠
      (([[some "h"], [some "a", some "t"]] : Table).getD 1 []).length := by
  decide

/-- C9 (amended): for every input table all of whose rows have at least
six cells, the output table keeps the column layout exactly: the row
count is unchanged, every row keeps its cell count, and every cell
outside the target columns 3, 4, 5 keeps its content; only the three
target cells may differ.  (A selected row shorter than six cells is
instead extended to six cells by the merge assignments.) -/
theorem c9_frame (table : Table) (respond : Nat → AiResponse) (r i : Nat)
    (h6 : ∀ row ∈ table, 6 ≤ row.length)
    (h3 : i ≠ 3) (h4 : i ≠ 4) (h5 : i ≠ 5) :
    (pipelineTable table respond).length = table.length ∧
      ((pipelineTable table respond).getD r []).length =
        (table.getD r []).length ∧
      cellAt ((pipelineTable table respond).getD r []) i =
        cellAt (table.getD r []) i :=
  ⟨length_applyMerge table _,
    applyMerge_row_length table _ r h6,
    applyMerge_cellAt_ne_targets table _ r i h3 h4 h5⟩

theorem c9_frame_witness :
    (∀ row ∈ ([[some "h", none, none, none, none, none],
        [some "a", some "t", none, none, none, some "z"]] : Table),
      6 ≤ row.length) ∧
      ((0 : Nat) ≠ 3) ∧ ((0 : Nat) ≠ 4) ∧ ((0 : Nat) ≠ 5) ∧
      ((pipelineTable [[some "h", none, none, none, none, none],
          [some "a", some "t", none, none, none, some "z"]]
          (fun _ => AiResponse.throws)).length =
        ([[some "h", none, none, none, none, none],
          [some "a", some "t", none, none, none, some "z"]] : Table).length ∧
        ((pipelineTable [[some "h", none, none, none, none, none],
            [some "a", some "t", none, none, none, some "z"]]
            (fun _ => AiResponse.throws)).getD 0 []).length =
          (([[some "h", none, none, none, none, none],
            [some "a", some "t", none, none, none, some "z"]] : Table).getD 0 []).length ∧
        cellAt ((pipelineTable [[some "h", none, none, none, none, none],
            [some "a", some "t", none, none, none, some "z"]]
            (fun _ => AiResponse.throws)).getD 0 []) 0 =
          cellAt (([[some "h", none, none, none, none, none],
            [some "a", some "t", none, none, none, some "z"]] : Table).getD 0 []) 0) :=
  ⟨by decide, by decide, by decide, by decide,
    c9_frame [[some "h", none, none, none, none, none],
        [some "a", some "t", none, none, none, some "z"]]
      (fun _ => AiResponse.throws) 0 0 (by decide) (by decide) (by decide) (by decide)⟩

end AiCsvApp
